import Mathlib

/-!
A shallow embedding of the BACnet/IP client library's codec layer: the
application-value tag decoder, the service-response parsers (I-Am,
ReadPropertyMultiple ACK in both its map-shaped and list-shaped variants,
COV/Event notification), the confirmed-request APDU builders, and the
COV re-subscription interval computation.

Conventions of the embedding:
- A byte stream is a `List Nat`; wire bytes lie in 0..255.  Machine
  integer arithmetic of the source (Go `uint32`) is modelled on `Nat`
  with explicit reduction modulo `2 ^ 32` where overflow can occur.
- Reads from a `bytes.Reader` are modelled by pattern matching on the
  list; `io.ReadFull` / `binary.Read` of `n` bytes is `readN n`, which
  fails when fewer than `n` bytes remain.
- Go functions returning `(T, error)` become `Option` valued: every
  error path of the source is `none`.  At the few places where the
  source discards a read error (`x, _ := r.ReadByte()`), the
  zero-valued default always runs into a strictly checked read or a
  failing comparison immediately afterwards, so the strict model
  returns `none` exactly when the source returns an error; each such
  place is noted in a comment.
- `float32` (BACnet Real) values are kept as their four big-endian
  payload bytes: the source only copies the bit pattern and performs no
  floating-point arithmetic on it.
-/

namespace BACnet

/-- One byte from the stream, as `bytes.Reader.ReadByte`: fails at end of
input. -/
def readByte : List Nat → Option (Nat × List Nat)
  | [] => none
  | b :: rest => some (b, rest)

/-- Exactly `n` bytes from the stream, as `io.ReadFull` into a buffer of
length `n`: fails when fewer than `n` bytes remain. -/
def readN (n : Nat) (l : List Nat) : Option (List Nat × List Nat) :=
  if n ≤ l.length then some (l.take n, l.drop n) else none

/-- Big-endian accumulation into a `uint32`, as the source loop
`val = (val << 8) | uint32(buf[i])` over a byte buffer. -/
def beFold32 (l : List Nat) : Nat :=
  l.foldl (fun v b => ((v <<< 8) % 2 ^ 32) ||| b) 0

/-- The `Status_Flags` record (four booleans). -/
structure StatusFlags where
  inAlarm : Bool
  fault : Bool
  overridden : Bool
  outOfService : Bool
deriving DecidableEq, Repr

/-- A BACnet object identifier as the source's `BACnetObject`:
`type` is the Go field `Type` (an `ObjectType`, i.e. `uint32`), `inst`
the Go field `Instance`. -/
structure BACnetObject where
  type : Nat
  inst : Nat
deriving DecidableEq, Repr

/-- The dynamic value (`interface{}`) a decoded application datum takes in
the source.  `real` keeps the four big-endian payload bytes of a
`float32`; `uint` covers both Unsigned (tag 2) and Enumerated (tag 9),
which the source returns as the same Go type `uint32`; `list` is the
`[]interface{}` slice `parseObjectPropertyList` builds for a property
whose bracket holds several application values. -/
inductive BValue where
  | null
  | bool (b : Bool)
  | uint (v : Nat)
  | real (bits : List Nat)
  | str (bytes : List Nat)
  | flags (f : StatusFlags)
  | object (o : BACnetObject)
  | bytes (bs : List Nat)
  | list (vs : List BValue)
deriving Repr

/-- Translation of `decodeStatusFlags` (src/decoder.go): the first byte is
the unused-bit count, which must be 4, the second carries the four flags
in bits 3..0. -/
def decodeStatusFlags (l : List Nat) : Option (StatusFlags × List Nat) :=
  match l with
  | unusedBits :: flagsByte :: rest2 =>
    if unusedBits ≠ 4 then none
    else
      some ({ inAlarm := (flagsByte >>> 3) &&& 1 = 1
              fault := (flagsByte >>> 2) &&& 1 = 1
              overridden := (flagsByte >>> 1) &&& 1 = 1
              outOfService := (flagsByte >>> 0) &&& 1 = 1 }, rest2)
  | _ => none

/-- The length-value part of reading a tag octet in
`decodeApplicationValue`: `lenVal := uint32(tag & 0x0F)`, and when it is
5 the next octet carries the length instead. -/
def readLenVal (tag : Nat) (r0 : List Nat) : Option (Nat × List Nat) :=
  if tag &&& 0x0F = 5 then readByte r0 else some (tag &&& 0x0F, r0)

/-- The switch over `tagNumber` in `decodeApplicationValue`, applied after
the tag octet (and the extended-length octet, if any) has been consumed.
For CharacterString the payload length is the `uint32` expression
`lenVal - 1`, which wraps to `2 ^ 32 - 1` when `lenVal = 0`; the wrap is
written out as `(lenVal + (2 ^ 32 - 1)) % 2 ^ 32`.  Real and
ObjectIdentifier read four bytes via `binary.Read`, ignoring `lenVal`. -/
def decodeBody (tagNumber lenVal : Nat) (r1 : List Nat) : Option (BValue × List Nat) :=
  if tagNumber = 0 then some (.null, r1)
  else if tagNumber = 1 then some (.bool (lenVal = 1), r1)
  else if tagNumber = 2 ∨ tagNumber = 9 then
    (readN lenVal r1).map fun p => (.uint (beFold32 p.1), p.2)
  else if tagNumber = 4 then
    (readN 4 r1).map fun p => (.real p.1, p.2)
  else if tagNumber = 7 then
    (readByte r1).bind fun p =>
      (readN ((lenVal + (2 ^ 32 - 1)) % 2 ^ 32) p.2).map fun q => (.str q.1, q.2)
  else if tagNumber = 8 then
    (decodeStatusFlags r1).map fun p => (.flags p.1, p.2)
  else if tagNumber = 12 then
    (readN 4 r1).map fun p =>
      (.object ⟨beFold32 p.1 >>> 22, beFold32 p.1 &&& 0x3FFFFF⟩, p.2)
  else
    (readN lenVal r1).map fun p => (.bytes p.1, p.2)

/-- Translation of `decodeApplicationValue` (src/decoder.go): the tag
octet splits into `tagNumber := tag >> 4` and the length-value handled by
`readLenVal`, then the switch `decodeBody` runs on the remaining
stream. -/
def decodeApplicationValue (l : List Nat) : Option (BValue × List Nat) :=
  match l with
  | [] => none
  | tag :: r0 =>
    match readLenVal tag r0 with
    | none => none
    | some (lenVal, r1) => decodeBody (tag >>> 4) lenVal r1

example : decodeApplicationValue [0x21, 7] = some (.uint 7, []) := rfl
example : decodeApplicationValue [0x82, 0x04, 0x8A] =
    some (.flags ⟨true, false, true, false⟩, []) := rfl
example : decodeApplicationValue [0x85, 0x04, 0x8A] = none := rfl
example : decodeApplicationValue [0xC4, 0xFF, 0xFF, 0xFF, 0xFF] =
    some (.object ⟨1023, 0x3FFFFF⟩, []) := rfl
example : decodeApplicationValue [0x75, 0x03, 0x00, 0x41, 0x42] =
    some (.str [0x41, 0x42], []) := rfl

/-! The ReadPropertyMultiple ACK parser `parseReadPropertyMultipleResponse`
(src/decoder.go).  Go maps are modelled as association lists with
overwrite-on-insert (`mapInsert`), which is the only map operation the
source performs.  Alongside the faithful translation there is a `Raw`
variant of each loop that records the read-access-results in the order
they occur on the wire instead of folding them into the map; it defines
what "appears in the body" means for a parsed datagram, and the
`_eq_raw` lemmas below show the map result is the insert-fold of the raw
list. -/

/-- Go map update `m[k] = v` on an association list: replaces the value at
an existing key, appends a new key at the end. -/
def mapInsert {κ ν : Type} [DecidableEq κ] (m : List (κ × ν)) (k : κ) (v : ν) :
    List (κ × ν) :=
  match m with
  | [] => [(k, v)]
  | (k', v') :: rest => if k' = k then (k, v) :: rest else (k', v') :: mapInsert rest k v

/-! Every parsing loop below consumes at least one byte per iteration, so
a loop started on a stream `l` iterates at most `l.length` times.  The
loops take an explicit iteration budget (`fuel`), and every call site
passes `l.length + 1` for the stream `l` it hands over, which the
`_length` consumption lemmas show can never be exhausted; the budget only
makes the recursion structural. -/

/-- The property loop of `parseReadPropertyMultipleResponse`: repeat
(context tag 0x29, one propID octet, open 0x4E, one application value,
close 0x4F), updating the object's property map, until the closing tag
0x1F of the property list. -/
def rpmPropLoop (fuel : Nat) (acc : List (Nat × BValue)) (l : List Nat) :
    Option (List (Nat × BValue) × List Nat) :=
  match fuel with
  | 0 => none
  | fuel + 1 =>
    match l with
    | [] => none
    | tag :: rest =>
      if tag = 0x1F then some (acc, rest)
      else if tag = 0x29 then
        match rest with
        | propID :: t4 :: rest3 =>
          if t4 = 0x4E then
            match decodeApplicationValue rest3 with
            | some (val, t5 :: rest5) =>
              if t5 = 0x4F then rpmPropLoop fuel (mapInsert acc propID val) rest5
              else none
            | _ => none
          else none
        | _ => none
      else none

/-- Order-preserving variant of `rpmPropLoop`: the in-order list of
(propID, value) records of one bracketed property list. -/
def rpmPropLoopRaw (fuel : Nat) (l : List Nat) :
    Option (List (Nat × BValue) × List Nat) :=
  match fuel with
  | 0 => none
  | fuel + 1 =>
    match l with
    | [] => none
    | tag :: rest =>
      if tag = 0x1F then some ([], rest)
      else if tag = 0x29 then
        match rest with
        | propID :: t4 :: rest3 =>
          if t4 = 0x4E then
            match decodeApplicationValue rest3 with
            | some (val, t5 :: rest5) =>
              if t5 = 0x4F then
                match rpmPropLoopRaw fuel rest5 with
                | some (raw, r) => some ((propID, val) :: raw, r)
                | none => none
              else none
            | _ => none
          else none
        | _ => none
      else none

/-- The outer loop of `parseReadPropertyMultipleResponse`: while bytes
remain, read a context tag 0x0C, a 32-bit object identifier, the opening
tag 0x1E, the property list, and store the property map under the decoded
object (a Go map assignment, so a repeated object identifier overwrites
the earlier entry). -/
def rpmObjLoop (fuel : Nat) (results : List (BACnetObject × List (Nat × BValue)))
    (l : List Nat) : Option (List (BACnetObject × List (Nat × BValue))) :=
  match fuel with
  | 0 => none
  | fuel + 1 =>
    match l with
    | [] => some results
    | tag :: rest =>
      if tag = 0x0C then
        match rest with
        | b0 :: b1 :: b2 :: b3 :: t1 :: rest3 =>
          if t1 = 0x1E then
            match rpmPropLoop (rest3.length + 1) [] rest3 with
            | some (props, rest4) =>
              rpmObjLoop fuel
                (mapInsert results
                  ⟨beFold32 [b0, b1, b2, b3] >>> 22, beFold32 [b0, b1, b2, b3] &&& 0x3FFFFF⟩
                  props) rest4
            | none => none
          else none
        | _ => none
      else none

/-- Order-preserving variant of `rpmObjLoop`: the read-access-results in
wire order, each with its in-order property records.  This is the "body"
of an accepted ReadPropertyMultiple ACK. -/
def rpmObjLoopRaw (fuel : Nat) (l : List Nat) :
    Option (List (BACnetObject × List (Nat × BValue))) :=
  match fuel with
  | 0 => none
  | fuel + 1 =>
    match l with
    | [] => some []
    | tag :: rest =>
      if tag = 0x0C then
        match rest with
        | b0 :: b1 :: b2 :: b3 :: t1 :: rest3 =>
          if t1 = 0x1E then
            match rpmPropLoopRaw (rest3.length + 1) rest3 with
            | some (raw, rest4) =>
              match rpmObjLoopRaw fuel rest4 with
              | some rawRest =>
                some ((⟨beFold32 [b0, b1, b2, b3] >>> 22,
                        beFold32 [b0, b1, b2, b3] &&& 0x3FFFFF⟩, raw) :: rawRest)
              | none => none
            | none => none
          else none
        | _ => none
      else none

/-- The shared front of the complex-ACK parsers
(`parseReadPropertyMultipleResponse` and `parseObjectPropertyList`):
skip BVLC (4 octets) and NPDU (2 octets) unchecked, reject an Error PDU
(high nibble 0x5) and anything that is not a complex-ACK (0x3), compare
the invoke ID, and check the service choice octet.  The source reads the
invoke ID discarding the read error (yielding 0 at end of input), but
that path still fails on the following strictly checked service read, so
the strict model returns `none` exactly when the source errors. -/
def parseAckHeader (data : List Nat) (expectedInvokeID expectedService : Nat) :
    Option (List Nat) :=
  match data with
  | _ :: _ :: _ :: _ :: _ :: _ :: apduType :: rest2 =>
    if apduType &&& 0xF0 = 0x50 then none
    else if apduType &&& 0xF0 = 0x30 then
      match rest2 with
      | invokeID :: service :: rest3 =>
        if invokeID = expectedInvokeID then
          if service = expectedService then some rest3 else none
        else none
      | _ => none
    else none
  | _ => none

/-- Translation of `parseReadPropertyMultipleResponse` (src/decoder.go):
ACK header for service ReadPropertyMultiple (0x0E), then the
read-access-result loop into a Go map. -/
def parseReadPropertyMultipleResponse (data : List Nat) (expectedInvokeID : Nat) :
    Option (List (BACnetObject × List (Nat × BValue))) :=
  match parseAckHeader data expectedInvokeID 0x0E with
  | some rest => rpmObjLoop (rest.length + 1) [] rest
  | none => none

/-- The body of a ReadPropertyMultiple ACK in wire order: same parse as
`parseReadPropertyMultipleResponse` but recording the read-access-results
as a list instead of folding them into a map. -/
def parseReadPropertyMultipleResponseRaw (data : List Nat) (expectedInvokeID : Nat) :
    Option (List (BACnetObject × List (Nat × BValue))) :=
  match parseAckHeader data expectedInvokeID 0x0E with
  | some rest => rpmObjLoopRaw (rest.length + 1) rest
  | none => none

example :
    parseReadPropertyMultipleResponse
      ([0x81, 0x0A, 0, 0, 1, 0] ++ [0x30, 1, 0x0E] ++
       [0x0C, 0, 0, 0, 1, 0x1E, 0x29, 85, 0x4E, 0x21, 9, 0x4F, 0x1F] ++
       [0x0C, 0, 0, 0, 1, 0x1E, 0x29, 111, 0x4E, 0x21, 4, 0x4F, 0x1F]) 1 =
    some [(⟨0, 1⟩, [(111, .uint 4)])] := rfl

example :
    parseReadPropertyMultipleResponseRaw
      ([0x81, 0x0A, 0, 0, 1, 0] ++ [0x30, 1, 0x0E] ++
       [0x0C, 0, 0, 0, 1, 0x1E, 0x29, 85, 0x4E, 0x21, 9, 0x4F, 0x1F] ++
       [0x0C, 0, 0, 0, 1, 0x1E, 0x29, 111, 0x4E, 0x21, 4, 0x4F, 0x1F]) 1 =
    some [(⟨0, 1⟩, [(85, .uint 9)]), (⟨0, 1⟩, [(111, .uint 4)])] := rfl

/-- Folding one bracketed property list's in-order records into a Go map,
exactly what `rpmPropLoop` does record by record. -/
def propsToMap (raw : List (Nat × BValue)) : List (Nat × BValue) :=
  raw.foldl (fun m q => mapInsert m q.1 q.2) []

/-- Folding the in-order read-access-results into the Go map
`parseReadPropertyMultipleResponse` returns. -/
def bodyToMap (raw : List (BACnetObject × List (Nat × BValue))) :
    List (BACnetObject × List (Nat × BValue)) :=
  raw.foldl (fun m e => mapInsert m e.1 (propsToMap e.2)) []

/-- All property IDs of a parsed ReadPropertyMultiple result (map or raw
body): the propIDs of every object entry, in order. -/
def allPropIDs (m : List (BACnetObject × List (Nat × BValue))) : List Nat :=
  m.flatMap (fun e => e.2.map Prod.fst)

/-! The list-shaped ReadPropertyMultiple ACK parser
`parseObjectPropertyList` (src/parser.go): same envelope and
read-access-result grammar, but it allows one OR MORE application values
inside each open-4/close-4 bracket (collected by peeking for the closing
tag), flattens all objects' properties into one list, and never looks at
the object identifiers it reads. -/

/-- The value-collection loop of `parseObjectPropertyList`: peek a byte;
the closing tag 0x4F ends the bracket, anything else must decode as one
application value, appended in order. -/
def collectValues (fuel : Nat) (vals : List BValue) (l : List Nat) :
    Option (List BValue × List Nat) :=
  match fuel with
  | 0 => none
  | fuel + 1 =>
    match l with
    | [] => none
    | peek :: rest =>
      if peek = 0x4F then some (vals, rest)
      else
        match decodeApplicationValue (peek :: rest) with
        | some (val, r) => collectValues fuel (vals ++ [val]) r
        | none => none

/-- The property loop of `parseObjectPropertyList`: like `rpmPropLoop`
but a bracket may hold several values; a single value is stored as that
value, any other count as the list of values (`[]interface{}`). -/
def oplPropLoop (fuel : Nat) (acc : List (Nat × BValue)) (l : List Nat) :
    Option (List (Nat × BValue) × List Nat) :=
  match fuel with
  | 0 => none
  | fuel + 1 =>
    match l with
    | [] => none
    | tag :: rest =>
      if tag = 0x1F then some (acc, rest)
      else if tag = 0x29 then
        match rest with
        | propID :: t4 :: rest3 =>
          if t4 = 0x4E then
            match collectValues (rest3.length + 1) [] rest3 with
            | some (vals, rest4) =>
              oplPropLoop fuel
                (acc ++ [(propID, if vals.length = 1 then vals.headD .null else .list vals)])
                rest4
            | none => none
          else none
        | _ => none
      else none

/-- The outer loop of `parseObjectPropertyList`: reads and discards each
object identifier, accumulating every object's properties into the one
`allProperties` list. -/
def oplObjLoop (fuel : Nat) (acc : List (Nat × BValue)) (l : List Nat) :
    Option (List (Nat × BValue)) :=
  match fuel with
  | 0 => none
  | fuel + 1 =>
    match l with
    | [] => some acc
    | tag :: rest =>
      if tag = 0x0C then
        match rest with
        | _b0 :: _b1 :: _b2 :: _b3 :: t1 :: rest3 =>
          if t1 = 0x1E then
            match oplPropLoop (rest3.length + 1) acc rest3 with
            | some (acc2, rest4) => oplObjLoop fuel acc2 rest4
            | none => none
          else none
        | _ => none
      else none

/-- Translation of `parseObjectPropertyList` (src/parser.go). -/
def parseObjectPropertyList (data : List Nat) (expectedInvokeID : Nat) :
    Option (List (Nat × BValue)) :=
  match parseAckHeader data expectedInvokeID 0x0E with
  | some rest => oplObjLoop (rest.length + 1) [] rest
  | none => none

/-- A parsed COV/Event notification, as the source's `COVNotification`;
`listOfValues` pairs each property ID with its decoded value
(`BACnetPropertyValue`). -/
structure COVNotification where
  subscriberProcessIdentifier : Nat
  initiatingDeviceIdentifier : BACnetObject
  monitoredObjectIdentifier : BACnetObject
  timeRemaining : Nat
  listOfValues : List (Nat × BValue)
deriving Repr

/-- The list-of-values loop of `parseCOVNotification`: repeat (context
tag 0x09, one propID octet, open 0x2E, one application value, close
0x2F) until the closing tag 0x4F. -/
def covValuesLoop (fuel : Nat) (acc : List (Nat × BValue)) (l : List Nat) :
    Option (List (Nat × BValue) × List Nat) :=
  match fuel with
  | 0 => none
  | fuel + 1 =>
    match l with
    | [] => none
    | tag :: rest =>
      if tag = 0x4F then some (acc, rest)
      else if tag = 0x09 then
        match rest with
        | propID :: t2 :: rest3 =>
          if t2 = 0x2E then
            match decodeApplicationValue rest3 with
            | some (val, t5 :: rest5) =>
              if t5 = 0x2F then covValuesLoop fuel (acc ++ [(propID, val)]) rest5
              else none
            | _ => none
          else none
        | _ => none
      else none

/-- Translation of `parseCOVNotification` (src/parser.go): skip six
envelope octets by fixed offset, require an unconfirmed-request APDU and
service choice 0x02 (Event-Notification), then the fixed field sequence.
The source discards the read errors of the subscriber-process-ID, device
and object identifiers and the time-remaining octet, but every such
truncated datagram then fails the next strictly checked tag read, so the
strict pattern below returns `none` exactly when the source errors. -/
def parseCOVNotification (data : List Nat) : Option COVNotification :=
  match data.drop 6 with
  | apduType :: rest1 =>
    if apduType &&& 0xF0 = 0x10 then
      match rest1 with
      | service :: rest2 =>
        if service = 0x02 then
          match rest2 with
          | t0 :: subId :: t1 :: d0 :: d1 :: d2 :: d3 ::
              t2 :: o0 :: o1 :: o2 :: o3 :: t3 :: timeRem :: t4 :: rest3 =>
            if t0 = 0x09 then
              if t1 = 0x1C then
                if t2 = 0x2C then
                  if t3 = 0x39 then
                    if t4 = 0x4E then
                      match covValuesLoop (rest3.length + 1) [] rest3 with
                      | some (vals, _trailing) =>
                        some { subscriberProcessIdentifier := subId
                               initiatingDeviceIdentifier :=
                                 ⟨beFold32 [d0, d1, d2, d3] >>> 22,
                                  beFold32 [d0, d1, d2, d3] &&& 0x3FFFFF⟩
                               monitoredObjectIdentifier :=
                                 ⟨beFold32 [o0, o1, o2, o3] >>> 22,
                                  beFold32 [o0, o1, o2, o3] &&& 0x3FFFFF⟩
                               timeRemaining := timeRem
                               listOfValues := vals }
                      | none => none
                    else none
                  else none
                else none
              else none
            else none
          | _ => none
        else none
      | _ => none
    else none
  | [] => none

/-- A discovered device, as the source's `DeviceInfo` restricted to the
fields `parseIAm` computes from the datagram bytes: `DeviceID` and
`MaxAPDU`.  (`IPAddress`, `Port` and `MacAddress` are copied from the UDP
sender address argument, not parsed from bytes.) -/
structure DeviceInfo where
  deviceID : Nat
  maxAPDU : Nat
deriving DecidableEq, Repr

/-- Translation of `parseIAm` (src/parser.go): BVLC type must be 0x81
(function and length are read but unchecked), NPDU skipped, APDU type
high nibble must be unconfirmed-request (0x10), service must be I-Am
(0x00), then four application-tagged fields in fixed order: object
identifier (tag byte 0xC4), max-APDU (0x22, two bytes), segmentation
(0x91, one byte), vendor ID (0x22, two bytes).  The object identifier's
object TYPE is never inspected; the device ID is the low 22 bits.  The
source checks each tag before reading the following payload, but a
truncated payload errors either way, so the flat pattern below returns
`none` exactly when the source errors. -/
def parseIAm (data : List Nat) : Option DeviceInfo :=
  match data with
  | bvlcType :: _f :: _l0 :: _l1 :: _v :: _c :: rest =>
    if bvlcType = 0x81 then
      match rest with
      | apduType :: rest2 =>
        if apduType &&& 0xF0 = 0x10 then
          match rest2 with
          | service :: rest3 =>
            if service = 0x00 then
              match rest3 with
              | t0 :: o0 :: o1 :: o2 :: o3 :: t1 :: m0 :: m1 ::
                  t2 :: _seg :: t3 :: _v0 :: _v1 :: _rest4 =>
                if t0 = 0xC4 then
                  if t1 = 0x22 then
                    if t2 = 0x91 then
                      if t3 = 0x22 then
                        some { deviceID := beFold32 [o0, o1, o2, o3] &&& 0x3FFFFF
                               maxAPDU := beFold32 [m0, m1] }
                      else none
                    else none
                  else none
                else none
              | _ => none
            else none
          | _ => none
        else none
      | _ => none
    else none
  | _ => none

example :
    parseIAm [0x81, 0x0B, 0x00, 0x19, 0x01, 0x00, 0x10, 0x00,
              0xC4, 0x02, 0x00, 0x04, 0xD2, 0x22, 0x05, 0xC4, 0x91, 0x00, 0x22, 0x00, 0x2A] =
    some ⟨1234, 1476⟩ := rfl

example :
    parseCOVNotification [0, 0, 0, 0, 0, 0, 0x10, 0x02, 0x09, 7, 0x1C, 0, 0, 0, 1,
                          0x2C, 0, 0, 0, 2, 0x39, 10, 0x4E, 0x4F] =
    some ⟨7, ⟨0, 1⟩, ⟨0, 2⟩, 10, []⟩ := rfl

/-! The confirmed-request APDU builders (src/decoder.go).  Each models
the `apduBuffer` a client method assembles after `GInvokeIDManager.Next()`
returned `invokeID`; the BVLC/NPDU wrapper added afterwards is six more
octets in front and does not touch the APDU.  `binary.Write` of a
big-endian `uint32` is `be32`. -/

/-- The four big-endian bytes `binary.Write` emits for a `uint32`. -/
def be32 (v : Nat) : List Nat :=
  [v / 2 ^ 24 % 256, v / 2 ^ 16 % 256, v / 2 ^ 8 % 256, v % 256]

/-- The packed wire word of an object identifier, the source expression
`(uint32(o.Type) << 22) | o.Instance` (a `uint32`, hence the modulus). -/
def encodeObjectIdentifier (o : BACnetObject) : Nat :=
  ((o.type <<< 22) ||| o.inst) % 2 ^ 32

/-- The APDU `GetObjectList` builds: ReadProperty (0x0C) of object-list
(property 76) on the Device object (type 8) of `deviceID`. -/
def getObjectListAPDU (invokeID deviceID : Nat) : List Nat :=
  [0x02, 0x75, invokeID, 0x0C, 0x0C] ++ be32 (encodeObjectIdentifier ⟨8, deviceID⟩) ++
    [0x19, 76]

/-- The APDU `GetObjectAllPropertyList` builds: ReadPropertyMultiple
(0x0E) with one read-access-spec asking for property ALL (8). -/
def getObjectAllPropertyListAPDU (invokeID : Nat) (object : BACnetObject) : List Nat :=
  [0x02, 0x75, invokeID, 0x0E, 0x0C] ++ be32 (encodeObjectIdentifier object) ++
    [0x1E, 0x09, 8, 0x1F]

/-- The APDU `ReadSpecificPropertiesFromObject` builds: one
read-access-spec with one property reference per requested ID, each
truncated to one octet by `uint8(propID)`. -/
def readSpecificPropertiesAPDU (invokeID : Nat) (object : BACnetObject)
    (propertyIDs : List Nat) : List Nat :=
  [0x02, 0x75, invokeID, 0x0E, 0x0C] ++ be32 (encodeObjectIdentifier object) ++
    [0x1E] ++ propertyIDs.flatMap (fun p => [0x09, p % 256]) ++ [0x1F]

/-- The APDU `ReadPropertiesFromMultipleObjects` builds.  The source
calls `GInvokeIDManager.Next()` into `invokeID` but never writes that
byte into the buffer: after the two header octets it immediately writes
the service choice 0x0E, then one read-access-spec per object.  The
unused `invokeID` parameter records the allocator call. -/
def readPropertiesFromMultipleObjectsAPDU (_invokeID : Nat) (objects : List BACnetObject)
    (propertyID : Nat) : List Nat :=
  [0x02, 0x75, 0x0E] ++
    objects.flatMap (fun o =>
      [0x0C] ++ be32 (encodeObjectIdentifier o) ++ [0x1E, 0x09, propertyID % 256, 0x1F])

/-- The APDU `sendSubscribeCOVRequest` builds: SubscribeCOV (0x05) with
context tags 0 (subscriber process ID, truncated to one octet), 1
(monitored object identifier), 2 (issue confirmed notifications), 3
(lifetime, a `uint8`). -/
def subscribeCOVAPDU (invokeID : Nat) (object : BACnetObject)
    (subscriberProcessIdentifier : Nat) (issueConfirmedNotifications : Bool)
    (lifetime : Nat) : List Nat :=
  [0x02, 0x75, invokeID, 0x05, 0x09, subscriberProcessIdentifier % 256, 0x1C] ++
    be32 (encodeObjectIdentifier object) ++
    [0x29, if issueConfirmedNotifications then 1 else 0, 0x39, lifetime % 256]

/-- The re-subscription interval of `handleCOVSubscription`
(src/decoder.go), in nanoseconds.  The source computes
`time.Duration(float64(lifetime)*0.8) * time.Second`: the float64 literal
`0.8` is exactly `3602879701896397 / 2 ^ 52`, `float64(lifetime)` is
exact for `lifetime ≤ 255`, and converting the product back to the
integer `time.Duration` truncates.  For every `lifetime ≤ 255` the
rounded product `RN(lifetime * 0.8)` lies in the same unit interval as
the exact product (the fractional part of the exact product is either at
least 1/5 or below 2 ^ (-46), and half an ulp at magnitudes below 256 is
less than 2 ^ (-45), too small to reach the next integer), so the
truncation equals the floor of the exact rational product, written here
with natural division.  `lifetime ≤ 0` seconds is replaced by the
1-second minimum. -/
def reSubscribeIntervalNs (lifetime : Nat) : Nat :=
  let t := lifetime * 3602879701896397 / 2 ^ 52
  if t = 0 then 1000000000 else t * 1000000000

example : reSubscribeIntervalNs 0 = 1000000000 := by decide
example : reSubscribeIntervalNs 60 = 48000000000 := by decide
example : reSubscribeIntervalNs 3 = 2000000000 := by decide

/-- An I-Am datagram assembled field by field, used to state what
`parseIAm` accepts: the 0x81/0x0B/length BVLC octets and version/control
NPDU octets of the source's own Who-Is reply handling, then the I-Am
APDU with the given object identifier word, max-APDU, segmentation and
vendor values. -/
def mkIAm (oid maxAPDU seg vendor : Nat) : List Nat :=
  [0x81, 0x0B, 0x00, 0x19, 0x01, 0x00, 0x10, 0x00, 0xC4] ++ be32 oid ++
    [0x22, maxAPDU / 256 % 256, maxAPDU % 256, 0x91, seg % 256,
     0x22, vendor / 256 % 256, vendor % 256]

/-- A ReadPropertyMultiple ACK datagram with one read-access-result
holding one property record whose open-4/close-4 bracket carries
`valueBytes`: BVLC and NPDU octets, complex-ACK with the given invoke ID,
service 0x0E, then object identifier word `oid`, the property list
bracket and the one record. -/
def mkRPMAckOne (invokeID oid propID : Nat) (valueBytes : List Nat) : List Nat :=
  [0x81, 0x0A, 0x00, 0x00, 0x01, 0x00, 0x30, invokeID, 0x0E, 0x0C] ++ be32 oid ++
    [0x1E, 0x29, propID, 0x4E] ++ valueBytes ++ [0x4F, 0x1F]

/-! Consumption bounds: every successful read leaves a strictly or weakly
shorter stream.  These feed the fuel-irrelevance lemmas further down,
which show the loop budgets of the response parsers never run out. -/

theorem readByte_length {l r : List Nat} {b : Nat} (h : readByte l = some (b, r)) :
    r.length + 1 = l.length := by
  cases l with
  | nil => simp [readByte] at h
  | cons x xs => simp [readByte] at h; simp [h.2.symm]

theorem readN_length {n : Nat} {l buf r : List Nat} (h : readN n l = some (buf, r)) :
    r.length ≤ l.length := by
  unfold readN at h
  split at h
  · cases h; simp
  · cases h

theorem decodeStatusFlags_length {l r : List Nat} {f : StatusFlags}
    (h : decodeStatusFlags l = some (f, r)) : r.length + 2 = l.length := by
  match l with
  | [] => simp [decodeStatusFlags] at h
  | [_] => simp [decodeStatusFlags] at h
  | u :: fb :: rest =>
    by_cases hu : u = 4
    · subst hu
      simp [decodeStatusFlags] at h
      simp [← h.2]
    · simp [decodeStatusFlags, hu] at h

theorem readLenVal_length {tag : Nat} {r0 r1 : List Nat} {len : Nat}
    (h : readLenVal tag r0 = some (len, r1)) : r1.length ≤ r0.length := by
  unfold readLenVal at h
  split at h
  · have := readByte_length h; omega
  · cases h; exact Nat.le_refl _

theorem decodeBody_length {tagNumber lenVal : Nat} {r1 r : List Nat} {v : BValue}
    (h : decodeBody tagNumber lenVal r1 = some (v, r)) : r.length ≤ r1.length := by
  simp only [decodeBody] at h
  split_ifs at h
  · cases h; exact Nat.le_refl _
  · cases h; exact Nat.le_refl _
  · obtain ⟨⟨buf, r2⟩, hrn, hf⟩ := Option.map_eq_some'.mp h
    cases hf; exact readN_length hrn
  · obtain ⟨⟨buf, r2⟩, hrn, hf⟩ := Option.map_eq_some'.mp h
    cases hf; exact readN_length hrn
  · obtain ⟨⟨b, r2⟩, hrb, h2⟩ := Option.bind_eq_some.mp h
    obtain ⟨⟨buf, r3⟩, hrn, hf⟩ := Option.map_eq_some'.mp h2
    cases hf
    have h3 := readByte_length hrb
    have h4 := readN_length hrn
    simp at h4 ⊢
    omega
  · obtain ⟨⟨f, r2⟩, hsf, hf⟩ := Option.map_eq_some'.mp h
    cases hf
    have h3 := decodeStatusFlags_length hsf
    simp
    omega
  · obtain ⟨⟨buf, r2⟩, hrn, hf⟩ := Option.map_eq_some'.mp h
    cases hf; exact readN_length hrn
  · obtain ⟨⟨buf, r2⟩, hrn, hf⟩ := Option.map_eq_some'.mp h
    cases hf; exact readN_length hrn

theorem decodeApplicationValue_length {l : List Nat} {p : BValue × List Nat}
    (h : decodeApplicationValue l = some p) : p.2.length < l.length := by
  cases l with
  | nil => simp [decodeApplicationValue] at h
  | cons tag r0 =>
    simp only [decodeApplicationValue] at h
    cases hrl : readLenVal tag r0 with
    | none => rw [hrl] at h; cases h
    | some q =>
      obtain ⟨lenVal, r1⟩ := q
      rw [hrl] at h
      obtain ⟨v, r⟩ := p
      have h1 := readLenVal_length hrl
      have h2 := decodeBody_length h
      simp at h2 ⊢
      omega

/-! Extension: a successful decode only looks at the bytes it consumes, so
appending further bytes to the stream leaves the decoded value unchanged
and lands them in the remainder. -/

theorem readByte_append {l r ext : List Nat} {b : Nat}
    (h : readByte l = some (b, r)) : readByte (l ++ ext) = some (b, r ++ ext) := by
  cases l with
  | nil => simp [readByte] at h
  | cons x xs => simp [readByte] at h ⊢; exact ⟨h.1, by rw [h.2]⟩

theorem readN_append {n : Nat} {l buf r ext : List Nat}
    (h : readN n l = some (buf, r)) : readN n (l ++ ext) = some (buf, r ++ ext) := by
  unfold readN at h ⊢
  split at h
  · cases h
    rename_i hn
    rw [if_pos (by simp; omega)]
    rw [List.take_append_of_le_length hn, List.drop_append_of_le_length hn]
  · cases h

theorem decodeStatusFlags_append {l r ext : List Nat} {f : StatusFlags}
    (h : decodeStatusFlags l = some (f, r)) :
    decodeStatusFlags (l ++ ext) = some (f, r ++ ext) := by
  match l with
  | [] => simp [decodeStatusFlags] at h
  | [_] => simp [decodeStatusFlags] at h
  | u :: fb :: rest =>
    by_cases hu : u = 4
    · subst hu
      simp [decodeStatusFlags] at h ⊢
      exact ⟨h.1, by rw [h.2]⟩
    · simp [decodeStatusFlags, hu] at h

theorem readLenVal_append {tag : Nat} {r0 r1 ext : List Nat} {len : Nat}
    (h : readLenVal tag r0 = some (len, r1)) :
    readLenVal tag (r0 ++ ext) = some (len, r1 ++ ext) := by
  unfold readLenVal at h ⊢
  split at h
  · rw [if_pos (by assumption)]
    exact readByte_append h
  · cases h
    rw [if_neg (by assumption)]

theorem decodeBody_append {tagNumber lenVal : Nat} {r1 r ext : List Nat} {v : BValue}
    (h : decodeBody tagNumber lenVal r1 = some (v, r)) :
    decodeBody tagNumber lenVal (r1 ++ ext) = some (v, r ++ ext) := by
  simp only [decodeBody] at h ⊢
  split_ifs at h ⊢
  · cases h; rfl
  · cases h; rfl
  · obtain ⟨⟨buf, r2⟩, hrn, hf⟩ := Option.map_eq_some'.mp h
    cases hf
    rw [readN_append hrn]
    rfl
  · obtain ⟨⟨buf, r2⟩, hrn, hf⟩ := Option.map_eq_some'.mp h
    cases hf
    rw [readN_append hrn]
    rfl
  · obtain ⟨⟨b, r2⟩, hrb, h2⟩ := Option.bind_eq_some.mp h
    obtain ⟨⟨buf, r3⟩, hrn, hf⟩ := Option.map_eq_some'.mp h2
    cases hf
    rw [readByte_append hrb, Option.some_bind, readN_append hrn]
    rfl
  · obtain ⟨⟨f2, r2⟩, hsf, hf⟩ := Option.map_eq_some'.mp h
    cases hf
    rw [decodeStatusFlags_append hsf]
    rfl
  · obtain ⟨⟨buf, r2⟩, hrn, hf⟩ := Option.map_eq_some'.mp h
    cases hf
    rw [readN_append hrn]
    rfl
  · obtain ⟨⟨buf, r2⟩, hrn, hf⟩ := Option.map_eq_some'.mp h
    cases hf
    rw [readN_append hrn]
    rfl

theorem decodeApplicationValue_append (ext : List Nat) {l r : List Nat} {v : BValue}
    (h : decodeApplicationValue l = some (v, r)) :
    decodeApplicationValue (l ++ ext) = some (v, r ++ ext) := by
  cases l with
  | nil => simp [decodeApplicationValue] at h
  | cons tag r0 =>
    simp only [decodeApplicationValue, List.cons_append] at h ⊢
    cases hrl : readLenVal tag r0 with
    | none => rw [hrl] at h; cases h
    | some q =>
      obtain ⟨lenVal, r1⟩ := q
      rw [hrl] at h
      rw [readLenVal_append hrl]
      exact decodeBody_append h

theorem rpmPropLoop_eq_raw :
    ∀ (fuel : Nat) (l : List Nat) (acc : List (Nat × BValue)),
      rpmPropLoop fuel acc l =
        (rpmPropLoopRaw fuel l).map
          (fun pr => (pr.1.foldl (fun m q => mapInsert m q.1 q.2) acc, pr.2)) := by
  intro fuel
  induction fuel with
  | zero => intro l acc; rfl
  | succ fuel ih =>
    intro l acc
    cases l with
    | nil => rfl
    | cons tag rest =>
      by_cases h1 : tag = 0x1F
      · simp [rpmPropLoop, rpmPropLoopRaw, h1]
      · by_cases h2 : tag = 0x29
        · simp only [rpmPropLoop, rpmPropLoopRaw, h1, h2, if_false, if_true,
            if_neg (fun hc => h1 hc), if_pos rfl]
          cases rest with
          | nil => rfl
          | cons propID rest2 =>
            cases rest2 with
            | nil => rfl
            | cons t4 rest3 =>
              by_cases h4 : t4 = 0x4E
              · simp only [if_pos h4]
                cases hdec : decodeApplicationValue rest3 with
                | none => rfl
                | some q =>
                  obtain ⟨val, rest4⟩ := q
                  cases rest4 with
                  | nil => rfl
                  | cons t5 rest5 =>
                    by_cases h5 : t5 = 0x4F
                    · simp only [if_pos h5]
                      rw [ih rest5 (mapInsert acc propID val)]
                      cases rpmPropLoopRaw fuel rest5 with
                      | none => rfl
                      | some pr => rfl
                    · simp only [if_neg h5]; rfl
              · simp only [if_neg h4]; rfl
        · simp [rpmPropLoop, rpmPropLoopRaw, h1, h2]

theorem rpmObjLoop_eq_raw :
    ∀ (fuel : Nat) (l : List Nat) (results : List (BACnetObject × List (Nat × BValue))),
      rpmObjLoop fuel results l =
        (rpmObjLoopRaw fuel l).map
          (fun raw => raw.foldl (fun m e => mapInsert m e.1 (propsToMap e.2)) results) := by
  intro fuel
  induction fuel with
  | zero => intro l results; rfl
  | succ fuel ih =>
    intro l results
    cases l with
    | nil => rfl
    | cons tag rest =>
      by_cases h1 : tag = 0x0C
      · simp only [rpmObjLoop, rpmObjLoopRaw, if_pos h1]
        match rest with
        | [] => rfl
        | [_] => rfl
        | [_, _] => rfl
        | [_, _, _] => rfl
        | [_, _, _, _] => rfl
        | b0 :: b1 :: b2 :: b3 :: t1 :: rest3 =>
          by_cases ht1 : t1 = 0x1E
          · simp only [if_pos ht1]
            rw [rpmPropLoop_eq_raw (rest3.length + 1) rest3 []]
            cases hp : rpmPropLoopRaw (rest3.length + 1) rest3 with
            | none => rfl
            | some pr =>
              obtain ⟨raw, rest4⟩ := pr
              simp only [Option.map_some']
              rw [ih rest4]
              cases rpmObjLoopRaw fuel rest4 with
              | none => rfl
              | some rawRest => rfl
          · simp only [if_neg ht1]; rfl
      · simp [rpmObjLoop, rpmObjLoopRaw, h1]

theorem parseReadPropertyMultipleResponse_eq_raw (data : List Nat) (expectedInvokeID : Nat) :
    parseReadPropertyMultipleResponse data expectedInvokeID =
      (parseReadPropertyMultipleResponseRaw data expectedInvokeID).map bodyToMap := by
  unfold parseReadPropertyMultipleResponse parseReadPropertyMultipleResponseRaw
  cases parseAckHeader data expectedInvokeID 0x0E with
  | none => rfl
  | some rest => exact rpmObjLoop_eq_raw (rest.length + 1) rest []

/-! Association-list facts about `mapInsert` and its folds: key sets,
key uniqueness, and the exact shape of a fold over records with distinct
keys. -/

theorem mapInsert_keys {κ ν : Type} [DecidableEq κ] (m : List (κ × ν)) (k0 k : κ) (v : ν) :
    k ∈ (mapInsert m k0 v).map Prod.fst ↔ k = k0 ∨ k ∈ m.map Prod.fst := by
  induction m with
  | nil => simp [mapInsert]
  | cons e rest ih =>
    obtain ⟨k', v'⟩ := e
    by_cases h : k' = k0
    · subst h
      simp [mapInsert]
    · simp [mapInsert, h, ih]
      tauto

theorem mapInsert_keys_nodup {κ ν : Type} [DecidableEq κ] (m : List (κ × ν)) (k0 : κ) (v : ν)
    (h : (m.map Prod.fst).Nodup) : ((mapInsert m k0 v).map Prod.fst).Nodup := by
  induction m with
  | nil => simp [mapInsert]
  | cons e rest ih =>
    obtain ⟨k', v'⟩ := e
    simp only [List.map_cons, List.nodup_cons] at h
    by_cases hk : k' = k0
    · subst hk
      have hins : mapInsert ((k', v') :: rest) k' v = (k', v) :: rest := by
        simp [mapInsert]
      rw [hins]
      simp only [List.map_cons, List.nodup_cons]
      exact h
    · simp only [mapInsert, if_neg hk, List.map_cons, List.nodup_cons]
      refine ⟨fun hmem => ?_, ih h.2⟩
      rcases (mapInsert_keys rest k0 k' v).mp hmem with rfl | hm
      · exact hk rfl
      · exact h.1 hm

theorem foldl_mapInsert_keys {κ β ν : Type} [DecidableEq κ] (f : κ × β → ν) :
    ∀ (raw : List (κ × β)) (m0 : List (κ × ν)) (k : κ),
      k ∈ ((raw.foldl (fun m e => mapInsert m e.1 (f e)) m0).map Prod.fst) ↔
        k ∈ m0.map Prod.fst ∨ k ∈ raw.map Prod.fst := by
  intro raw
  induction raw with
  | nil => simp
  | cons e rest ih =>
    intro m0 k
    simp only [List.foldl_cons, ih, mapInsert_keys, List.map_cons, List.mem_cons]
    tauto

theorem foldl_mapInsert_keys_nodup {κ β ν : Type} [DecidableEq κ] (f : κ × β → ν) :
    ∀ (raw : List (κ × β)) (m0 : List (κ × ν)),
      (m0.map Prod.fst).Nodup →
      ((raw.foldl (fun m e => mapInsert m e.1 (f e)) m0).map Prod.fst).Nodup := by
  intro raw
  induction raw with
  | nil => intro m0 h; exact h
  | cons e rest ih =>
    intro m0 h
    exact ih _ (mapInsert_keys_nodup m0 e.1 (f e) h)

theorem mapInsert_of_not_mem {κ ν : Type} [DecidableEq κ] {m : List (κ × ν)} {k : κ} (v : ν)
    (h : k ∉ m.map Prod.fst) : mapInsert m k v = m ++ [(k, v)] := by
  induction m with
  | nil => simp [mapInsert]
  | cons e rest ih =>
    obtain ⟨k', v'⟩ := e
    simp only [List.map_cons, List.mem_cons, not_or] at h
    simp only [mapInsert, if_neg (fun hc : k' = k => h.1 hc.symm), ih h.2, List.cons_append]

theorem foldl_mapInsert_eq_map {κ β ν : Type} [DecidableEq κ] (f : κ × β → ν) :
    ∀ (raw : List (κ × β)) (m0 : List (κ × ν)),
      (raw.map Prod.fst).Nodup →
      (∀ e ∈ raw, e.1 ∉ m0.map Prod.fst) →
      raw.foldl (fun m e => mapInsert m e.1 (f e)) m0 =
        m0 ++ raw.map (fun e => (e.1, f e)) := by
  intro raw
  induction raw with
  | nil => simp
  | cons e rest ih =>
    intro m0 hnd hdisj
    simp only [List.map_cons, List.nodup_cons] at hnd
    have hdisj2 : ∀ e' ∈ rest, e'.1 ∉ (m0 ++ [(e.1, f e)]).map Prod.fst := by
      intro e' he'
      simp only [List.map_append, List.mem_append, List.map_cons, List.map_nil, not_or]
      refine ⟨hdisj e' (List.mem_cons_of_mem e he'), ?_⟩
      simp only [List.mem_singleton]
      intro hfst
      exact hnd.1 (hfst ▸ List.mem_map_of_mem Prod.fst he')
    rw [List.foldl_cons, mapInsert_of_not_mem (f e) (hdisj e (List.mem_cons_self e rest)),
      ih _ hnd.2 hdisj2]
    simp

/-! Consumption and fuel irrelevance for the parsing loops: a successful
loop run consumes at least one byte (the `_length` lemmas), so the loop
returns the same result under every budget exceeding the stream length
(the `_fuel` lemmas).  Together with the `l.length + 1` budgets at the
call sites, these show the budgets never cut a parse short: the functions
compute exactly the source's unbounded loops. -/

theorem rpmPropLoop_length :
    ∀ {fuel : Nat} {acc m : List (Nat × BValue)} {l r : List Nat},
      rpmPropLoop fuel acc l = some (m, r) → r.length < l.length := by
  intro fuel
  induction fuel with
  | zero => intro acc m l r h; simp [rpmPropLoop] at h
  | succ fuel ih =>
    intro acc m l r h
    cases l with
    | nil => simp [rpmPropLoop] at h
    | cons tag rest =>
      by_cases h1 : tag = 0x1F
      · simp [rpmPropLoop, h1] at h
        simp [← h.2]
      · by_cases h2 : tag = 0x29
        · simp only [rpmPropLoop, if_neg h1, if_pos h2] at h
          cases rest with
          | nil => simp at h
          | cons propID rest2 =>
            cases rest2 with
            | nil => simp at h
            | cons t4 rest3 =>
              dsimp only at h
              by_cases h4 : t4 = 0x4E
              · rw [if_pos h4] at h
                cases hdec : decodeApplicationValue rest3 with
                | none => rw [hdec] at h; simp at h
                | some q =>
                  obtain ⟨val, rest4⟩ := q
                  rw [hdec] at h
                  cases rest4 with
                  | nil => simp at h
                  | cons t5 rest5 =>
                    by_cases h5 : t5 = 0x4F
                    · dsimp only at h
                      rw [if_pos h5] at h
                      have hd := decodeApplicationValue_length hdec
                      have hr := ih h
                      simp only [List.length_cons] at hd ⊢
                      omega
                    · dsimp only at h
                      rw [if_neg h5] at h
                      cases h
              · rw [if_neg h4] at h
                cases h
        · simp [rpmPropLoop, h1, h2] at h

theorem rpmPropLoopRaw_length :
    ∀ {fuel : Nat} {raw : List (Nat × BValue)} {l r : List Nat},
      rpmPropLoopRaw fuel l = some (raw, r) → r.length < l.length := by
  intro fuel
  induction fuel with
  | zero => intro raw l r h; simp [rpmPropLoopRaw] at h
  | succ fuel ih =>
    intro raw l r h
    cases l with
    | nil => simp [rpmPropLoopRaw] at h
    | cons tag rest =>
      by_cases h1 : tag = 0x1F
      · simp [rpmPropLoopRaw, h1] at h
        simp [← h.2]
      · by_cases h2 : tag = 0x29
        · simp only [rpmPropLoopRaw, if_neg h1, if_pos h2] at h
          cases rest with
          | nil => simp at h
          | cons propID rest2 =>
            cases rest2 with
            | nil => simp at h
            | cons t4 rest3 =>
              dsimp only at h
              by_cases h4 : t4 = 0x4E
              · rw [if_pos h4] at h
                cases hdec : decodeApplicationValue rest3 with
                | none => rw [hdec] at h; simp at h
                | some q =>
                  obtain ⟨val, rest4⟩ := q
                  rw [hdec] at h
                  cases rest4 with
                  | nil => simp at h
                  | cons t5 rest5 =>
                    by_cases h5 : t5 = 0x4F
                    · dsimp only at h
                      rw [if_pos h5] at h
                      cases hrec : rpmPropLoopRaw fuel rest5 with
                      | none => rw [hrec] at h; cases h
                      | some pr =>
                        obtain ⟨raw2, r2⟩ := pr
                        rw [hrec] at h
                        cases h
                        have hd := decodeApplicationValue_length hdec
                        have hr := ih hrec
                        simp only [List.length_cons] at hd ⊢
                        omega
                    · dsimp only at h
                      rw [if_neg h5] at h
                      cases h
              · rw [if_neg h4] at h
                cases h
        · simp [rpmPropLoopRaw, h1, h2] at h

theorem collectValues_length :
    ∀ {fuel : Nat} {vals vs : List BValue} {l r : List Nat},
      collectValues fuel vals l = some (vs, r) → r.length < l.length := by
  intro fuel
  induction fuel with
  | zero => intro vals vs l r h; simp [collectValues] at h
  | succ fuel ih =>
    intro vals vs l r h
    cases l with
    | nil => simp [collectValues] at h
    | cons peek rest =>
      by_cases hpk : peek = 0x4F
      · simp [collectValues, hpk] at h
        simp [← h.2]
      · simp only [collectValues, if_neg hpk] at h
        cases hdec : decodeApplicationValue (peek :: rest) with
        | none => rw [hdec] at h; cases h
        | some q =>
          obtain ⟨val, r2⟩ := q
          rw [hdec] at h
          have hd := decodeApplicationValue_length hdec
          have hr := ih h
          simp only [List.length_cons] at hd ⊢
          omega

theorem oplPropLoop_length :
    ∀ {fuel : Nat} {acc m : List (Nat × BValue)} {l r : List Nat},
      oplPropLoop fuel acc l = some (m, r) → r.length < l.length := by
  intro fuel
  induction fuel with
  | zero => intro acc m l r h; simp [oplPropLoop] at h
  | succ fuel ih =>
    intro acc m l r h
    cases l with
    | nil => simp [oplPropLoop] at h
    | cons tag rest =>
      by_cases h1 : tag = 0x1F
      · simp [oplPropLoop, h1] at h
        simp [← h.2]
      · by_cases h2 : tag = 0x29
        · simp only [oplPropLoop, if_neg h1, if_pos h2] at h
          cases rest with
          | nil => simp at h
          | cons propID rest2 =>
            cases rest2 with
            | nil => simp at h
            | cons t4 rest3 =>
              dsimp only at h
              by_cases h4 : t4 = 0x4E
              · rw [if_pos h4] at h
                cases hc : collectValues (rest3.length + 1) [] rest3 with
                | none => rw [hc] at h; simp at h
                | some pr =>
                  obtain ⟨vals, rest4⟩ := pr
                  rw [hc] at h
                  have hcl := collectValues_length hc
                  have hr := ih h
                  simp only [List.length_cons]
                  omega
              · rw [if_neg h4] at h
                cases h
        · simp [oplPropLoop, h1, h2] at h

theorem rpmPropLoop_fuel :
    ∀ (f1 f2 : Nat) (acc : List (Nat × BValue)) (l : List Nat),
      l.length < f1 → l.length < f2 →
      rpmPropLoop f1 acc l = rpmPropLoop f2 acc l := by
  intro f1
  induction f1 with
  | zero => intro f2 acc l h1 h2; omega
  | succ f1 ih =>
    intro f2 acc l h1 h2
    cases f2 with
    | zero => omega
    | succ f2 =>
      cases l with
      | nil => rfl
      | cons tag rest =>
        by_cases htag : tag = 0x1F
        · simp [rpmPropLoop, htag]
        · by_cases htag2 : tag = 0x29
          · simp only [rpmPropLoop, if_neg htag, if_pos htag2]
            cases rest with
            | nil => rfl
            | cons propID rest2 =>
              cases rest2 with
              | nil => rfl
              | cons t4 rest3 =>
                by_cases ht4 : t4 = 0x4E
                · simp only [if_pos ht4]
                  cases hdec : decodeApplicationValue rest3 with
                  | none => rfl
                  | some q =>
                    obtain ⟨val, rest4⟩ := q
                    cases rest4 with
                    | nil => rfl
                    | cons t5 rest5 =>
                      by_cases ht5 : t5 = 0x4F
                      · simp only [if_pos ht5]
                        have hlen := decodeApplicationValue_length hdec
                        simp only [List.length_cons] at h1 h2 hlen
                        exact ih f2 (mapInsert acc propID val) rest5 (by omega) (by omega)
                      · simp only [if_neg ht5]
                · simp only [if_neg ht4]
          · simp [rpmPropLoop, htag, htag2]

theorem rpmPropLoopRaw_fuel :
    ∀ (f1 f2 : Nat) (l : List Nat),
      l.length < f1 → l.length < f2 →
      rpmPropLoopRaw f1 l = rpmPropLoopRaw f2 l := by
  intro f1
  induction f1 with
  | zero => intro f2 l h1 h2; omega
  | succ f1 ih =>
    intro f2 l h1 h2
    cases f2 with
    | zero => omega
    | succ f2 =>
      cases l with
      | nil => rfl
      | cons tag rest =>
        by_cases htag : tag = 0x1F
        · simp [rpmPropLoopRaw, htag]
        · by_cases htag2 : tag = 0x29
          · simp only [rpmPropLoopRaw, if_neg htag, if_pos htag2]
            cases rest with
            | nil => rfl
            | cons propID rest2 =>
              cases rest2 with
              | nil => rfl
              | cons t4 rest3 =>
                by_cases ht4 : t4 = 0x4E
                · simp only [if_pos ht4]
                  cases hdec : decodeApplicationValue rest3 with
                  | none => rfl
                  | some q =>
                    obtain ⟨val, rest4⟩ := q
                    cases rest4 with
                    | nil => rfl
                    | cons t5 rest5 =>
                      by_cases ht5 : t5 = 0x4F
                      · simp only [if_pos ht5]
                        have hlen := decodeApplicationValue_length hdec
                        simp only [List.length_cons] at h1 h2 hlen
                        rw [ih f2 rest5 (by omega) (by omega)]
                      · simp only [if_neg ht5]
                · simp only [if_neg ht4]
          · simp [rpmPropLoopRaw, htag, htag2]

theorem rpmObjLoop_fuel :
    ∀ (f1 f2 : Nat) (results : List (BACnetObject × List (Nat × BValue))) (l : List Nat),
      l.length < f1 → l.length < f2 →
      rpmObjLoop f1 results l = rpmObjLoop f2 results l := by
  intro f1
  induction f1 with
  | zero => intro f2 results l h1 h2; omega
  | succ f1 ih =>
    intro f2 results l h1 h2
    cases f2 with
    | zero => omega
    | succ f2 =>
      cases l with
      | nil => rfl
      | cons tag rest =>
        by_cases htag : tag = 0x0C
        · simp only [rpmObjLoop, if_pos htag]
          match rest with
          | [] => rfl
          | [_] => rfl
          | [_, _] => rfl
          | [_, _, _] => rfl
          | [_, _, _, _] => rfl
          | b0 :: b1 :: b2 :: b3 :: t1 :: rest3 =>
            by_cases ht1 : t1 = 0x1E
            · simp only [if_pos ht1]
              cases hp : rpmPropLoop (rest3.length + 1) [] rest3 with
              | none => rfl
              | some pr =>
                obtain ⟨props, rest4⟩ := pr
                have hlen := rpmPropLoop_length hp
                simp only [List.length_cons] at h1 h2
                exact ih f2 _ rest4 (by omega) (by omega)
            · simp only [if_neg ht1]
        · simp [rpmObjLoop, htag]

theorem rpmObjLoopRaw_fuel :
    ∀ (f1 f2 : Nat) (l : List Nat),
      l.length < f1 → l.length < f2 →
      rpmObjLoopRaw f1 l = rpmObjLoopRaw f2 l := by
  intro f1
  induction f1 with
  | zero => intro f2 l h1 h2; omega
  | succ f1 ih =>
    intro f2 l h1 h2
    cases f2 with
    | zero => omega
    | succ f2 =>
      cases l with
      | nil => rfl
      | cons tag rest =>
        by_cases htag : tag = 0x0C
        · simp only [rpmObjLoopRaw, if_pos htag]
          match rest with
          | [] => rfl
          | [_] => rfl
          | [_, _] => rfl
          | [_, _, _] => rfl
          | [_, _, _, _] => rfl
          | b0 :: b1 :: b2 :: b3 :: t1 :: rest3 =>
            by_cases ht1 : t1 = 0x1E
            · simp only [if_pos ht1]
              cases hp : rpmPropLoopRaw (rest3.length + 1) rest3 with
              | none => rfl
              | some pr =>
                obtain ⟨raw, rest4⟩ := pr
                have hlen := rpmPropLoopRaw_length hp
                simp only [List.length_cons] at h1 h2
                dsimp only
                rw [ih f2 rest4 (by omega) (by omega)]
            · simp only [if_neg ht1]
        · simp [rpmObjLoopRaw, htag]

theorem collectValues_fuel :
    ∀ (f1 f2 : Nat) (vals : List BValue) (l : List Nat),
      l.length < f1 → l.length < f2 →
      collectValues f1 vals l = collectValues f2 vals l := by
  intro f1
  induction f1 with
  | zero => intro f2 vals l h1 h2; omega
  | succ f1 ih =>
    intro f2 vals l h1 h2
    cases f2 with
    | zero => omega
    | succ f2 =>
      cases l with
      | nil => rfl
      | cons peek rest =>
        by_cases hpk : peek = 0x4F
        · simp [collectValues, hpk]
        · simp only [collectValues, if_neg hpk]
          cases hdec : decodeApplicationValue (peek :: rest) with
          | none => rfl
          | some q =>
            obtain ⟨val, r⟩ := q
            have hlen := decodeApplicationValue_length hdec
            simp only [List.length_cons] at h1 h2 hlen
            exact ih f2 (vals ++ [val]) r (by omega) (by omega)

theorem oplPropLoop_fuel :
    ∀ (f1 f2 : Nat) (acc : List (Nat × BValue)) (l : List Nat),
      l.length < f1 → l.length < f2 →
      oplPropLoop f1 acc l = oplPropLoop f2 acc l := by
  intro f1
  induction f1 with
  | zero => intro f2 acc l h1 h2; omega
  | succ f1 ih =>
    intro f2 acc l h1 h2
    cases f2 with
    | zero => omega
    | succ f2 =>
      cases l with
      | nil => rfl
      | cons tag rest =>
        by_cases htag : tag = 0x1F
        · simp [oplPropLoop, htag]
        · by_cases htag2 : tag = 0x29
          · simp only [oplPropLoop, if_neg htag, if_pos htag2]
            cases rest with
            | nil => rfl
            | cons propID rest2 =>
              cases rest2 with
              | nil => rfl
              | cons t4 rest3 =>
                by_cases ht4 : t4 = 0x4E
                · simp only [if_pos ht4]
                  cases hc : collectValues (rest3.length + 1) [] rest3 with
                  | none => rfl
                  | some pr =>
                    obtain ⟨vals, rest4⟩ := pr
                    have hlen := collectValues_length hc
                    simp only [List.length_cons] at h1 h2
                    exact ih f2 _ rest4 (by omega) (by omega)
                · simp only [if_neg ht4]
          · simp [oplPropLoop, htag, htag2]

theorem oplObjLoop_fuel :
    ∀ (f1 f2 : Nat) (acc : List (Nat × BValue)) (l : List Nat),
      l.length < f1 → l.length < f2 →
      oplObjLoop f1 acc l = oplObjLoop f2 acc l := by
  intro f1
  induction f1 with
  | zero => intro f2 acc l h1 h2; omega
  | succ f1 ih =>
    intro f2 acc l h1 h2
    cases f2 with
    | zero => omega
    | succ f2 =>
      cases l with
      | nil => rfl
      | cons tag rest =>
        by_cases htag : tag = 0x0C
        · simp only [oplObjLoop, if_pos htag]
          match rest with
          | [] => rfl
          | [_] => rfl
          | [_, _] => rfl
          | [_, _, _] => rfl
          | [_, _, _, _] => rfl
          | b0 :: b1 :: b2 :: b3 :: t1 :: rest3 =>
            by_cases ht1 : t1 = 0x1E
            · simp only [if_pos ht1]
              cases hp : oplPropLoop (rest3.length + 1) acc rest3 with
              | none => rfl
              | some pr =>
                obtain ⟨acc2, rest4⟩ := pr
                have hlen := oplPropLoop_length hp
                simp only [List.length_cons] at h1 h2
                exact ih f2 acc2 rest4 (by omega) (by omega)
            · simp only [if_neg ht1]
        · simp [oplObjLoop, htag]

theorem covValuesLoop_fuel :
    ∀ (f1 f2 : Nat) (acc : List (Nat × BValue)) (l : List Nat),
      l.length < f1 → l.length < f2 →
      covValuesLoop f1 acc l = covValuesLoop f2 acc l := by
  intro f1
  induction f1 with
  | zero => intro f2 acc l h1 h2; omega
  | succ f1 ih =>
    intro f2 acc l h1 h2
    cases f2 with
    | zero => omega
    | succ f2 =>
      cases l with
      | nil => rfl
      | cons tag rest =>
        by_cases htag : tag = 0x4F
        · simp [covValuesLoop, htag]
        · by_cases htag2 : tag = 0x09
          · simp only [covValuesLoop, if_neg htag, if_pos htag2]
            cases rest with
            | nil => rfl
            | cons propID rest2 =>
              cases rest2 with
              | nil => rfl
              | cons t2 rest3 =>
                by_cases ht2 : t2 = 0x2E
                · simp only [if_pos ht2]
                  cases hdec : decodeApplicationValue rest3 with
                  | none => rfl
                  | some q =>
                    obtain ⟨val, rest4⟩ := q
                    cases rest4 with
                    | nil => rfl
                    | cons t5 rest5 =>
                      by_cases ht5 : t5 = 0x2F
                      · simp only [if_pos ht5]
                        have hlen := decodeApplicationValue_length hdec
                        simp only [List.length_cons] at h1 h2 hlen
                        exact ih f2 _ rest5 (by omega) (by omega)
                      · simp only [if_neg ht5]
                · simp only [if_neg ht2]
          · simp [covValuesLoop, htag, htag2]

theorem length_le_flatMap (pairs : List (List Nat × BValue))
    (h : ∀ q ∈ pairs, q.1 ≠ []) :
    pairs.length ≤ (pairs.flatMap Prod.fst).length := by
  induction pairs with
  | nil => simp
  | cons q rest ih =>
    have hq := h q (List.mem_cons_self _ _)
    have hr := ih (fun q' hq' => h q' (List.mem_cons_of_mem _ hq'))
    cases hq1 : q.1 with
    | nil => exact absurd hq1 hq
    | cons b bs =>
      simp only [List.flatMap_cons, List.length_append, List.length_cons, hq1]
      simp at hr ⊢
      omega

theorem collectValues_computes :
    ∀ (pairs : List (List Nat × BValue)) (fuel : Nat) (vals : List BValue) (rest : List Nat),
      (∀ q ∈ pairs, decodeApplicationValue q.1 = some (q.2, []) ∧ q.1.headD 0x4F ≠ 0x4F) →
      pairs.length < fuel →
      collectValues fuel vals (pairs.flatMap Prod.fst ++ 0x4F :: rest) =
        some (vals ++ pairs.map Prod.snd, rest) := by
  intro pairs
  induction pairs with
  | nil =>
    intro fuel vals rest _ hf
    cases fuel with
    | zero => omega
    | succ f => simp [collectValues]
  | cons q pairs ih =>
    intro fuel vals rest hq hf
    obtain ⟨bs, v⟩ := q
    obtain ⟨hdec, hhead⟩ := hq (bs, v) (List.mem_cons_self _ _)
    cases bs with
    | nil => simp [decodeApplicationValue] at hdec
    | cons b bs2 =>
      have hb : b ≠ 0x4F := by simpa using hhead
      cases fuel with
      | zero => omega
      | succ fuel =>
        simp only [List.flatMap_cons, List.cons_append, List.append_assoc]
        have hd := decodeApplicationValue_append
          (pairs.flatMap Prod.fst ++ 0x4F :: rest) hdec
        simp only [List.cons_append, List.nil_append] at hd
        simp only [collectValues, if_neg hb, hd]
        rw [ih fuel (vals ++ [v]) rest
          (fun q' hq' => hq q' (List.mem_cons_of_mem _ hq')) (by simp at hf ⊢; omega)]
        simp

theorem parseAckHeader_mkRPMAckOne (iid oid pid : Nat) (vb : List Nat) :
    parseAckHeader (mkRPMAckOne iid oid pid vb) iid 0x0E =
      some (0x0C :: (be32 oid ++
        (0x1E :: 0x29 :: pid :: 0x4E :: (vb ++ [0x4F, 0x1F])))) := by
  unfold mkRPMAckOne parseAckHeader
  simp only [List.append_assoc, List.cons_append, List.nil_append]
  simp
  decide

theorem oplPropLoop_one_record :
    ∀ (fuel : Nat) (acc : List (Nat × BValue)) (pid : Nat)
      (pairs : List (List Nat × BValue)),
      (∀ q ∈ pairs, decodeApplicationValue q.1 = some (q.2, []) ∧ q.1.headD 0x4F ≠ 0x4F) →
      2 ≤ fuel →
      oplPropLoop fuel acc
          (0x29 :: pid :: 0x4E :: (pairs.flatMap Prod.fst ++ [0x4F, 0x1F])) =
        some (acc ++ [(pid, if pairs.length = 1 then (pairs.map Prod.snd).headD .null
                            else .list (pairs.map Prod.snd))], []) := by
  intro fuel acc pid pairs hq hfuel
  match fuel, hfuel with
  | fuel + 2, _ =>
    have hne : ∀ q ∈ pairs, q.1 ≠ [] := by
      intro q hq' h0
      have := (hq q hq').1
      rw [h0] at this
      simp [decodeApplicationValue] at this
    have hlen : pairs.length <
        (pairs.flatMap Prod.fst ++ [0x4F, 0x1F]).length + 1 := by
      have h1 := length_le_flatMap pairs hne
      have h2 : (pairs.flatMap Prod.fst ++ [0x4F, 0x1F]).length =
          (pairs.flatMap Prod.fst).length + 2 := by simp
      omega
    simp only [oplPropLoop, if_neg (by decide : ¬ (0x29 : Nat) = 0x1F),
      if_pos (rfl : (0x29 : Nat) = 0x29), if_pos (rfl : (0x4E : Nat) = 0x4E)]
    rw [collectValues_computes pairs _ [] [0x1F] hq hlen]
    simp [oplPropLoop, List.length_map]

theorem oplObjLoop_one_object :
    ∀ (fuel : Nat) (acc : List (Nat × BValue)) (b0 b1 b2 b3 pid : Nat)
      (pairs : List (List Nat × BValue)),
      (∀ q ∈ pairs, decodeApplicationValue q.1 = some (q.2, []) ∧ q.1.headD 0x4F ≠ 0x4F) →
      2 ≤ fuel →
      oplObjLoop fuel acc
          (0x0C :: b0 :: b1 :: b2 :: b3 :: 0x1E ::
            (0x29 :: pid :: 0x4E :: (pairs.flatMap Prod.fst ++ [0x4F, 0x1F]))) =
        some (acc ++ [(pid, if pairs.length = 1 then (pairs.map Prod.snd).headD .null
                            else .list (pairs.map Prod.snd))]) := by
  intro fuel acc b0 b1 b2 b3 pid pairs hq hfuel
  match fuel, hfuel with
  | fuel + 2, _ =>
    simp only [oplObjLoop, if_pos (rfl : (0x0C : Nat) = 0x0C),
      if_pos (rfl : (0x1E : Nat) = 0x1E)]
    rw [oplPropLoop_one_record _ acc pid pairs hq (by simp)]
    simp [oplObjLoop]

theorem rpmPropLoop_one_record :
    ∀ (fuel : Nat) (acc : List (Nat × BValue)) (pid : Nat) (bs : List Nat) (v : BValue),
      decodeApplicationValue bs = some (v, []) →
      2 ≤ fuel →
      rpmPropLoop fuel acc (0x29 :: pid :: 0x4E :: (bs ++ [0x4F, 0x1F])) =
        some (mapInsert acc pid v, []) := by
  intro fuel acc pid bs v hdec hfuel
  match fuel, hfuel with
  | fuel + 2, _ =>
    have hd := decodeApplicationValue_append [0x4F, 0x1F] hdec
    simp only [List.nil_append] at hd
    simp [rpmPropLoop, hd]

theorem rpmObjLoop_one_object :
    ∀ (fuel : Nat) (results : List (BACnetObject × List (Nat × BValue)))
      (b0 b1 b2 b3 pid : Nat) (bs : List Nat) (v : BValue),
      decodeApplicationValue bs = some (v, []) →
      2 ≤ fuel →
      rpmObjLoop fuel results
          (0x0C :: b0 :: b1 :: b2 :: b3 :: 0x1E ::
            (0x29 :: pid :: 0x4E :: (bs ++ [0x4F, 0x1F]))) =
        some (mapInsert results
          ⟨beFold32 [b0, b1, b2, b3] >>> 22, beFold32 [b0, b1, b2, b3] &&& 0x3FFFFF⟩
          [(pid, v)]) := by
  intro fuel results b0 b1 b2 b3 pid bs v hdec hfuel
  match fuel, hfuel with
  | fuel + 2, _ =>
    simp only [rpmObjLoop, if_pos (rfl : (0x0C : Nat) = 0x0C),
      if_pos (rfl : (0x1E : Nat) = 0x1E)]
    rw [rpmPropLoop_one_record _ [] pid bs v hdec (by simp)]
    simp [rpmObjLoop, mapInsert]

theorem rpmPropLoop_second_value_fails :
    ∀ (fuel : Nat) (acc : List (Nat × BValue)) (pid : Nat) (bs1 bs2 : List Nat)
      (v1 : BValue),
      decodeApplicationValue bs1 = some (v1, []) →
      bs2.headD 0x4F ≠ 0x4F → bs2 ≠ [] →
      rpmPropLoop fuel acc (0x29 :: pid :: 0x4E :: ((bs1 ++ bs2) ++ [0x4F, 0x1F])) =
        none := by
  intro fuel acc pid bs1 bs2 v1 hdec hhead hne
  cases fuel with
  | zero => rfl
  | succ fuel =>
    cases bs2 with
    | nil => exact absurd rfl hne
    | cons b bs2' =>
      have hb : b ≠ 0x4F := by simpa using hhead
      have hd := decodeApplicationValue_append
        ((b :: bs2') ++ [0x4F, 0x1F]) hdec
      simp only [List.nil_append, List.cons_append] at hd
      simp only [List.append_assoc, List.cons_append]
      simp [rpmPropLoop, hd, hb]

theorem rpmObjLoop_second_value_fails :
    ∀ (fuel : Nat) (results : List (BACnetObject × List (Nat × BValue)))
      (b0 b1 b2 b3 pid : Nat) (bs1 bs2 : List Nat) (v1 : BValue),
      decodeApplicationValue bs1 = some (v1, []) →
      bs2.headD 0x4F ≠ 0x4F → bs2 ≠ [] →
      rpmObjLoop fuel results
          (0x0C :: b0 :: b1 :: b2 :: b3 :: 0x1E ::
            (0x29 :: pid :: 0x4E :: ((bs1 ++ bs2) ++ [0x4F, 0x1F]))) = none := by
  intro fuel results b0 b1 b2 b3 pid bs1 bs2 v1 hdec hhead hne
  cases fuel with
  | zero => rfl
  | succ fuel =>
    simp only [rpmObjLoop, if_pos (rfl : (0x0C : Nat) = 0x0C),
      if_pos (rfl : (0x1E : Nat) = 0x1E)]
    rw [rpmPropLoop_second_value_fails _ [] pid bs1 bs2 v1 hdec hhead hne]
    simp

/-! Arithmetic of the wire words: big-endian byte round-trips and the
pack/unpack laws of object identifiers. -/

theorem beStep {v b : Nat} (hv : v < 2 ^ 24) (hb : b < 256) :
    ((v <<< 8) % 2 ^ 32) ||| b = v * 256 + b := by
  have h1 : v <<< 8 = 2 ^ 8 * v := by rw [Nat.shiftLeft_eq]; ring
  have h2 : 2 ^ 8 * v < 2 ^ 32 := by omega
  rw [h1, Nat.mod_eq_of_lt h2, ← Nat.mul_add_lt_is_or hb v]
  ring

theorem beFold32_be32 {v : Nat} (hv : v < 2 ^ 32) : beFold32 (be32 v) = v := by
  have ha : v / 2 ^ 24 % 256 < 256 := Nat.mod_lt _ (by norm_num)
  have hb : v / 2 ^ 16 % 256 < 256 := Nat.mod_lt _ (by norm_num)
  have hc : v / 2 ^ 8 % 256 < 256 := Nat.mod_lt _ (by norm_num)
  have hd : v % 256 < 256 := Nat.mod_lt _ (by norm_num)
  show ((((((((0 <<< 8) % 2 ^ 32) ||| (v / 2 ^ 24 % 256)) <<< 8) % 2 ^ 32) |||
      (v / 2 ^ 16 % 256)) <<< 8 % 2 ^ 32 ||| (v / 2 ^ 8 % 256)) <<< 8 % 2 ^ 32 |||
      (v % 256)) = v
  rw [beStep (by norm_num) ha, beStep (by omega) hb, beStep (by omega) hc,
    beStep (by omega) hd]
  omega

theorem beFold32_two {m : Nat} (hm : m < 2 ^ 16) :
    beFold32 [m / 256 % 256, m % 256] = m := by
  have ha : m / 256 % 256 < 256 := Nat.mod_lt _ (by norm_num)
  have hb : m % 256 < 256 := Nat.mod_lt _ (by norm_num)
  show ((((0 <<< 8) % 2 ^ 32) ||| (m / 256 % 256)) <<< 8 % 2 ^ 32 ||| (m % 256)) = m
  rw [beStep (by norm_num) ha, beStep (by omega) hb]
  omega

theorem encodeObjectIdentifier_eq {t i : Nat} (ht : t < 1024) (hi : i < 2 ^ 22) :
    encodeObjectIdentifier ⟨t, i⟩ = t * 2 ^ 22 + i := by
  unfold encodeObjectIdentifier
  have h1 : t <<< 22 = 2 ^ 22 * t := by rw [Nat.shiftLeft_eq]; ring
  have h2 : 2 ^ 22 * t + i < 2 ^ 32 := by omega
  rw [h1, ← Nat.mul_add_lt_is_or hi t, Nat.mod_eq_of_lt h2]
  ring

theorem unpack_type {t i : Nat} (ht : t < 1024) (hi : i < 2 ^ 22) :
    (t * 2 ^ 22 + i) >>> 22 = t := by
  rw [Nat.shiftRight_eq_div_pow]
  omega

theorem unpack_inst {t i : Nat} (hi : i < 2 ^ 22) :
    (t * 2 ^ 22 + i) &&& 0x3FFFFF = i := by
  have h : (0x3FFFFF : Nat) = 2 ^ 22 - 1 := by norm_num
  rw [h, Nat.and_pow_two_sub_one_eq_mod]
  omega

/-! The claims. -/

/-- C1: the invoke-ID byte is the third APDU octet in four of the five
confirmed-request builders, but `ReadPropertiesFromMultipleObjects`
allocates an invoke ID and never writes it: its third APDU octet is the
service choice 0x0E, which differs from the allocated invoke ID 1 at the
concrete failing input. -/
theorem confirmedRequest_invokeID_octet :
    (∀ invokeID deviceID : Nat, (getObjectListAPDU invokeID deviceID)[2]? = some invokeID) ∧
    (∀ (invokeID : Nat) (o : BACnetObject),
      (getObjectAllPropertyListAPDU invokeID o)[2]? = some invokeID) ∧
    (∀ (invokeID : Nat) (o : BACnetObject) (ps : List Nat),
      (readSpecificPropertiesAPDU invokeID o ps)[2]? = some invokeID) ∧
    (∀ (invokeID : Nat) (o : BACnetObject) (s : Nat) (c : Bool) (lt : Nat),
      (subscribeCOVAPDU invokeID o s c lt)[2]? = some invokeID) ∧
    ((readPropertiesFromMultipleObjectsAPDU 1 [⟨0, 3⟩] 85)[2]? = some 0x0E ∧
      (0x0E : Nat) ≠ 1) :=
  ⟨fun _ _ => rfl, fun _ _ => rfl, fun _ _ _ => rfl, fun _ _ _ _ _ => rfl,
    rfl, by decide⟩

/-- C3 counterexample: at lifetime 3 the code's re-subscription interval
is exactly 2 s (the float64 product 2.4 truncated), not the claimed
max(1 s, 0.8 × 3 s) = 2 400 000 000 ns. -/
theorem reSubscribeInterval_lifetime3 :
    reSubscribeIntervalNs 3 = 2000000000 ∧
    reSubscribeIntervalNs 3 ≠ max 1000000000 (3 * 800000000) := by decide

set_option maxRecDepth 4096 in
/-- C3 (amended): for every lifetime in 0..255 the re-subscription
interval is max(1 s, ⌊0.8 × lifetime⌋ s) — the float64 product truncated
to whole seconds; in particular lifetime 0 (and 1) yields exactly 1 s. -/
theorem reSubscribeInterval_floor_law :
    ∀ lifetime : Nat, lifetime < 256 →
      reSubscribeIntervalNs lifetime =
        max 1000000000 (4 * lifetime / 5 * 1000000000) := by decide

theorem reSubscribeInterval_floor_law_witness :
    reSubscribeIntervalNs 60 = max 1000000000 (4 * 60 / 5 * 1000000000) :=
  reSubscribeInterval_floor_law 60 (by decide)

/-- C5 counterexample: the byte sequence 85 04 8A is rejected by
`decodeApplicationValue`: the tag octet 0x85 has length-value 5, so 0x04
is consumed as the extended-length octet, and 0x8A then fails the
Status_Flags unused-bits check. -/
theorem statusFlags_85_04_8A_fails :
    decodeApplicationValue [0x85, 0x04, 0x8A] = none := rfl

/-- C5 (amended): the Status_Flags payload 04 8A decodes to
{inAlarm = 1, fault = 0, overridden = 1, outOfService = 0} under the tag
octet 0x82 (tag 8, direct length 2); under the claimed tag octet 0x85 the
decode fails because length-value 5 consumes 0x04 as an extended
length. -/
theorem statusFlags_82_04_8A :
    decodeApplicationValue [0x82, 0x04, 0x8A] =
      some (.flags ⟨true, false, true, false⟩, []) ∧
    decodeApplicationValue [0x85, 0x04, 0x8A] = none := ⟨rfl, rfl⟩

/-- C8: for lifetime 60, subscriber process ID 123, unconfirmed
notifications and monitored object (AnalogInput, instance 3), the
SubscribeCOV APDU ends with 09 7B 1C 00 00 00 03 29 00 39 3C (its four
header octets are followed by exactly this tail), for every invoke ID. -/
theorem subscribeCOV_apdu_tail :
    ∀ invokeID : Nat,
      (subscribeCOVAPDU invokeID ⟨0, 3⟩ 123 false 60).drop 4 =
        [0x09, 0x7B, 0x1C, 0x00, 0x00, 0x00, 0x03, 0x29, 0x00, 0x39, 0x3C] :=
  fun _ => rfl

/-- C9: packing (type, instance) as (type << 22) | instance into a
big-endian 32-bit word and decoding it with the application-value decoder
(tag 12) returns the original pair, for every type < 1024 and
instance < 2^22; and (1023, 0x3FFFFF) packs to 0xFFFFFFFF and decodes
back to itself. -/
theorem objectIdentifier_roundtrip :
    ∀ t i : Nat, t < 1024 → i < 2 ^ 22 →
      decodeApplicationValue (0xC4 :: be32 (encodeObjectIdentifier ⟨t, i⟩)) =
          some (.object ⟨t, i⟩, []) ∧
      encodeObjectIdentifier ⟨1023, 0x3FFFFF⟩ = 0xFFFFFFFF ∧
      decodeApplicationValue (0xC4 :: be32 0xFFFFFFFF) =
          some (.object ⟨1023, 0x3FFFFF⟩, []) := by
  intro t i ht hi
  refine ⟨?_, by decide, rfl⟩
  rw [encodeObjectIdentifier_eq ht hi]
  have hlt : t * 2 ^ 22 + i < 2 ^ 32 := by omega
  have h1 : decodeApplicationValue (0xC4 :: be32 (t * 2 ^ 22 + i)) =
      (readN 4 (be32 (t * 2 ^ 22 + i))).map
        (fun p => (.object ⟨beFold32 p.1 >>> 22, beFold32 p.1 &&& 0x3FFFFF⟩, p.2)) := rfl
  have h2 : readN 4 (be32 (t * 2 ^ 22 + i)) = some (be32 (t * 2 ^ 22 + i), []) := rfl
  rw [h1, h2, Option.map_some', beFold32_be32 hlt, unpack_type ht hi, unpack_inst hi]

theorem objectIdentifier_roundtrip_witness :
    decodeApplicationValue (0xC4 :: be32 (encodeObjectIdentifier ⟨8, 1234⟩)) =
        some (.object ⟨8, 1234⟩, []) ∧
    encodeObjectIdentifier ⟨1023, 0x3FFFFF⟩ = 0xFFFFFFFF ∧
    decodeApplicationValue (0xC4 :: be32 0xFFFFFFFF) =
        some (.object ⟨1023, 0x3FFFFF⟩, []) :=
  objectIdentifier_roundtrip 8 1234 (by decide) (by decide)

/-- C10: every stream whose first tag octet is 0x70 (CharacterString,
length field 0) is rejected by `decodeApplicationValue` whenever it is
shorter than the 2^32 - 1 + 2 bytes the wrapped `uint32` payload length
`0 - 1` demands: the decoder consumes the encoding-indicator byte and
then fails to read 2^32 - 1 payload bytes. -/
theorem charString_len0_always_fails :
    ∀ l : List Nat, l.length < 2 ^ 32 → decodeApplicationValue (0x70 :: l) = none := by
  intro l hl
  cases l with
  | nil => rfl
  | cons e rest =>
    have h1 : decodeApplicationValue (0x70 :: e :: rest) =
        (readN ((0 + (2 ^ 32 - 1)) % 2 ^ 32) rest).map (fun q => (.str q.1, q.2)) := rfl
    rw [h1]
    have hn : ¬ ((0 + (2 ^ 32 - 1)) % 2 ^ 32 ≤ rest.length) := by
      simp only [List.length_cons] at hl
      omega
    unfold readN
    rw [if_neg hn]
    rfl

theorem charString_len0_always_fails_witness :
    decodeApplicationValue (0x70 :: [0x00]) = none :=
  charString_len0_always_fails [0x00] (by decide)

/-- C4 counterexample: an I-Am datagram whose object identifier word is 5
— object type 0 (AnalogInput), not Device — still yields a DeviceInfo,
with device ID 5: `parseIAm` never checks the object type. -/
theorem parseIAm_accepts_nonDevice :
    parseIAm (mkIAm 5 1024 0 42) = some ⟨5, 1024⟩ ∧
    (5 : Nat) >>> 22 = 0 ∧ (0 : Nat) ≠ 8 := ⟨rfl, by decide, by decide⟩

/-- C4 (amended): `parseIAm` accepts a well-formed I-Am datagram for
every 32-bit object identifier word, whatever object type its top ten
bits carry, and the DeviceInfo it yields has device ID equal to the low
22 bits of that word (and the parsed 16-bit max-APDU field). -/
theorem parseIAm_deviceID_low22 :
    ∀ oid maxAPDU seg vendor : Nat, oid < 2 ^ 32 → maxAPDU < 2 ^ 16 →
      parseIAm (mkIAm oid maxAPDU seg vendor) = some ⟨oid % 2 ^ 22, maxAPDU⟩ := by
  intro oid maxAPDU seg vendor ho hm
  have h1 : parseIAm (mkIAm oid maxAPDU seg vendor) =
      some ⟨beFold32 (be32 oid) &&& 0x3FFFFF,
            beFold32 [maxAPDU / 256 % 256, maxAPDU % 256]⟩ := rfl
  rw [h1, beFold32_be32 ho, beFold32_two hm]
  have h2 : (0x3FFFFF : Nat) = 2 ^ 22 - 1 := by norm_num
  rw [h2, Nat.and_pow_two_sub_one_eq_mod]

theorem parseIAm_deviceID_low22_witness :
    parseIAm (mkIAm (8 * 2 ^ 22 + 1234) 1476 0 42) =
      some ⟨(8 * 2 ^ 22 + 1234) % 2 ^ 22, 1476⟩ :=
  parseIAm_deviceID_low22 (8 * 2 ^ 22 + 1234) 1476 0 42 (by decide) (by decide)

/-- C7: `parseCOVNotification` accepts a datagram only when the APDU
octet after the six skipped envelope octets has high nibble
unconfirmed-request (0x10) and the following service choice octet is
exactly 0x02 (Event-Notification); a datagram whose service choice octet
is 0x01 (COV-Notification) is always rejected. -/
theorem parseCOVNotification_service_check :
    (∀ (h6 : List Nat) (t s : Nat) (rest : List Nat) (n : COVNotification),
        h6.length = 6 →
        parseCOVNotification (h6 ++ t :: s :: rest) = some n →
        t &&& 0xF0 = 0x10 ∧ s = 2) ∧
    (∀ (h6 : List Nat) (t : Nat) (rest : List Nat),
        h6.length = 6 →
        parseCOVNotification (h6 ++ t :: 0x01 :: rest) = none) := by
  have hdrop : ∀ (h6 : List Nat) (l : List Nat), h6.length = 6 →
      (h6 ++ l).drop 6 = l := by
    intro h6 l h6len
    rw [← h6len, List.drop_left]
  constructor
  · intro h6 t s rest n h6len hp
    unfold parseCOVNotification at hp
    rw [hdrop h6 (t :: s :: rest) h6len] at hp
    dsimp only at hp
    by_cases h1 : t &&& 0xF0 = 0x10
    · rw [if_pos h1] at hp
      by_cases h2 : s = 2
      · exact ⟨h1, h2⟩
      · rw [if_neg h2] at hp
        cases hp
    · rw [if_neg h1] at hp
      cases hp
  · intro h6 t rest h6len
    unfold parseCOVNotification
    rw [hdrop h6 (t :: 0x01 :: rest) h6len]
    dsimp only
    by_cases h1 : t &&& 0xF0 = 0x10
    · rw [if_pos h1]
      simp
    · rw [if_neg h1]

theorem parseCOVNotification_service_check_witness :
    ((0x10 : Nat) &&& 0xF0 = 0x10 ∧ (2 : Nat) = 2) ∧
    parseCOVNotification [0, 0, 0, 0, 0, 0, 0x10, 0x01, 0x09] = none :=
  ⟨parseCOVNotification_service_check.1 [0, 0, 0, 0, 0, 0] 0x10 2
      [0x09, 7, 0x1C, 0, 0, 0, 1, 0x2C, 0, 0, 0, 2, 0x39, 10, 0x4E, 0x4F]
      ⟨7, ⟨0, 1⟩, ⟨0, 2⟩, 10, []⟩ rfl rfl,
    parseCOVNotification_service_check.2 [0, 0, 0, 0, 0, 0] 0x10 [0x09] rfl⟩

/-- C2 counterexample: a ReadPropertyMultiple ACK whose body carries the
same object identifier (0, 1) in two read-access-results — properties 85
and then 111 — parses to a map whose only entry holds property 111 alone:
the second result overwrote the first, so property 85 appears in the body
but not in the union of the returned property sets. -/
theorem rpm_duplicate_object_loses_props :
    parseReadPropertyMultipleResponse
        ([0x81, 0x0A, 0, 0, 1, 0] ++ [0x30, 1, 0x0E] ++
         [0x0C, 0, 0, 0, 1, 0x1E, 0x29, 85, 0x4E, 0x21, 9, 0x4F, 0x1F] ++
         [0x0C, 0, 0, 0, 1, 0x1E, 0x29, 111, 0x4E, 0x21, 4, 0x4F, 0x1F]) 1 =
      some [(⟨0, 1⟩, [(111, .uint 4)])] ∧
    parseReadPropertyMultipleResponseRaw
        ([0x81, 0x0A, 0, 0, 1, 0] ++ [0x30, 1, 0x0E] ++
         [0x0C, 0, 0, 0, 1, 0x1E, 0x29, 85, 0x4E, 0x21, 9, 0x4F, 0x1F] ++
         [0x0C, 0, 0, 0, 1, 0x1E, 0x29, 111, 0x4E, 0x21, 4, 0x4F, 0x1F]) 1 =
      some [(⟨0, 1⟩, [(85, .uint 9)]), (⟨0, 1⟩, [(111, .uint 4)])] ∧
    85 ∈ allPropIDs [(⟨0, 1⟩, [(85, BValue.uint 9)]), (⟨0, 1⟩, [(111, BValue.uint 4)])] ∧
    85 ∉ allPropIDs [(⟨0, 1⟩, [(111, BValue.uint 4)])] :=
  ⟨rfl, rfl, by simp [allPropIDs], by simp [allPropIDs]⟩

/-- C2 (amended): whenever `parseReadPropertyMultipleResponse` accepts a
datagram, its result has exactly one entry per distinct object identifier
of the body (the keys are duplicate-free and are exactly the body's
object identifiers); and the union of the per-object property-ID sets
equals the set of property IDs of the body PROVIDED each object
identifier occurs in at most one read-access-result — a repeated object
identifier overwrites the earlier entry, losing its properties. -/
theorem parseRPM_keys_and_props :
    ∀ (data : List Nat) (iid : Nat) (m raw : List (BACnetObject × List (Nat × BValue))),
      parseReadPropertyMultipleResponse data iid = some m →
      parseReadPropertyMultipleResponseRaw data iid = some raw →
      ((m.map Prod.fst).Nodup ∧
        (∀ o, o ∈ m.map Prod.fst ↔ o ∈ raw.map Prod.fst)) ∧
      ((raw.map Prod.fst).Nodup →
        ∀ p, p ∈ allPropIDs m ↔ p ∈ allPropIDs raw) := by
  intro data iid m raw hm hraw
  have heq := parseReadPropertyMultipleResponse_eq_raw data iid
  rw [hm, hraw, Option.map_some'] at heq
  have hmb : m = bodyToMap raw := by injection heq
  subst hmb
  have hprops : ∀ (ps : List (Nat × BValue)) (q : Nat),
      q ∈ (propsToMap ps).map Prod.fst ↔ q ∈ ps.map Prod.fst := by
    intro ps q
    have h := foldl_mapInsert_keys (fun e : Nat × BValue => e.2) ps [] q
    simpa [propsToMap] using h
  refine ⟨⟨?_, ?_⟩, ?_⟩
  · exact foldl_mapInsert_keys_nodup _ raw [] (by simp)
  · intro o
    have h := foldl_mapInsert_keys (fun e : BACnetObject × List (Nat × BValue) =>
      propsToMap e.2) raw [] o
    simpa [bodyToMap] using h
  · intro hnd p
    have hmap := foldl_mapInsert_eq_map
      (fun e : BACnetObject × List (Nat × BValue) => propsToMap e.2) raw [] hnd (by simp)
    unfold bodyToMap
    rw [hmap, List.nil_append]
    simp only [allPropIDs, List.mem_flatMap]
    constructor
    · rintro ⟨e', he', hp⟩
      obtain ⟨e, he, rfl⟩ := List.mem_map.mp he'
      exact ⟨e, he, (hprops e.2 p).mp hp⟩
    · rintro ⟨e, he, hp⟩
      exact ⟨(e.1, propsToMap e.2), List.mem_map.mpr ⟨e, he, rfl⟩, (hprops e.2 p).mpr hp⟩

theorem parseRPM_keys_and_props_witness :
    (((List.map Prod.fst [((⟨0, 1⟩ : BACnetObject), [(85, BValue.uint 9)])]).Nodup ∧
      (∀ o, o ∈ List.map Prod.fst [((⟨0, 1⟩ : BACnetObject), [(85, BValue.uint 9)])] ↔
        o ∈ List.map Prod.fst [((⟨0, 1⟩ : BACnetObject), [(85, BValue.uint 9)])])) ∧
     ((List.map Prod.fst [((⟨0, 1⟩ : BACnetObject), [(85, BValue.uint 9)])]).Nodup →
      ∀ p, p ∈ allPropIDs [(⟨0, 1⟩, [(85, BValue.uint 9)])] ↔
        p ∈ allPropIDs [(⟨0, 1⟩, [(85, BValue.uint 9)])])) :=
  parseRPM_keys_and_props
    ([0x81, 0x0A, 0, 0, 1, 0] ++ [0x30, 1, 0x0E] ++
     [0x0C, 0, 0, 0, 1, 0x1E, 0x29, 85, 0x4E, 0x21, 9, 0x4F, 0x1F]) 1
    [(⟨0, 1⟩, [(85, BValue.uint 9)])] [(⟨0, 1⟩, [(85, BValue.uint 9)])] (by rfl) (by rfl)

/-- C6 counterexample: a ReadPropertyMultiple ACK whose single property
bracket holds two application values (two one-byte unsigneds) is REJECTED
by `parseReadPropertyMultipleResponse`, while `parseObjectPropertyList`
decodes the same datagram to the list of the two values — the claim that
both decoders return the list is false for the map-shaped decoder. -/
theorem rpm_multiValue_bracket_rejected :
    parseReadPropertyMultipleResponse (mkRPMAckOne 1 3 85 [0x21, 5, 0x21, 7]) 1 = none ∧
    parseObjectPropertyList (mkRPMAckOne 1 3 85 [0x21, 5, 0x21, 7]) 1 =
      some [(85, .list [.uint 5, .uint 7])] := ⟨rfl, rfl⟩

/-- C6 (amended): `parseObjectPropertyList` returns a bracket of exactly
one application value as that value and a bracket of two or more values
as the list of those values; `parseReadPropertyMultipleResponse` instead
accepts only single-value brackets, returning the value, and rejects any
bracket holding a second application value. -/
theorem propertyBracket_value_shapes :
    (∀ (iid oid pid : Nat) (pairs : List (List Nat × BValue)),
      (∀ q ∈ pairs, decodeApplicationValue q.1 = some (q.2, []) ∧ q.1.headD 0x4F ≠ 0x4F) →
      parseObjectPropertyList (mkRPMAckOne iid oid pid (pairs.flatMap Prod.fst)) iid =
        some [(pid, if pairs.length = 1 then (pairs.map Prod.snd).headD .null
                    else .list (pairs.map Prod.snd))]) ∧
    (∀ (iid oid pid : Nat) (bs : List Nat) (v : BValue),
      decodeApplicationValue bs = some (v, []) → oid < 2 ^ 32 →
      parseReadPropertyMultipleResponse (mkRPMAckOne iid oid pid bs) iid =
        some [(⟨oid >>> 22, oid &&& 0x3FFFFF⟩, [(pid, v)])]) ∧
    (∀ (iid oid pid : Nat) (bs1 bs2 : List Nat) (v1 v2 : BValue),
      decodeApplicationValue bs1 = some (v1, []) →
      decodeApplicationValue bs2 = some (v2, []) → bs2.headD 0x4F ≠ 0x4F →
      parseReadPropertyMultipleResponse (mkRPMAckOne iid oid pid (bs1 ++ bs2)) iid =
        none) := by
  refine ⟨?_, ?_, ?_⟩
  · intro iid oid pid pairs hq
    unfold parseObjectPropertyList
    rw [parseAckHeader_mkRPMAckOne]
    simp only [be32, List.cons_append, List.nil_append]
    rw [oplObjLoop_one_object _ [] _ _ _ _ pid pairs hq (by simp)]
    simp
  · intro iid oid pid bs v hdec ho
    unfold parseReadPropertyMultipleResponse
    rw [parseAckHeader_mkRPMAckOne]
    simp only [be32, List.cons_append, List.nil_append]
    rw [rpmObjLoop_one_object _ [] _ _ _ _ pid bs v hdec (by simp)]
    rw [show beFold32 [oid / 2 ^ 24 % 256, oid / 2 ^ 16 % 256, oid / 2 ^ 8 % 256,
        oid % 256] = oid from beFold32_be32 ho]
    rfl
  · intro iid oid pid bs1 bs2 v1 v2 hdec1 hdec2 hhead
    have hne2 : bs2 ≠ [] := by
      intro h0
      rw [h0] at hdec2
      simp [decodeApplicationValue] at hdec2
    unfold parseReadPropertyMultipleResponse
    rw [parseAckHeader_mkRPMAckOne]
    simp only [be32, List.cons_append, List.nil_append]
    rw [rpmObjLoop_second_value_fails _ [] _ _ _ _ pid bs1 bs2 v1 hdec1 hhead hne2]

theorem propertyBracket_value_shapes_witness :
    (parseObjectPropertyList
        (mkRPMAckOne 1 3 85
          (([([0x21, 5], BValue.uint 5), ([0x21, 7], BValue.uint 7)]).flatMap Prod.fst)) 1 =
      some [(85, if ([([0x21, 5], BValue.uint 5), ([0x21, 7], BValue.uint 7)]).length = 1
                 then (([([0x21, 5], BValue.uint 5),
                        ([0x21, 7], BValue.uint 7)]).map Prod.snd).headD .null
                 else .list (([([0x21, 5], BValue.uint 5),
                              ([0x21, 7], BValue.uint 7)]).map Prod.snd))]) ∧
    (parseReadPropertyMultipleResponse (mkRPMAckOne 2 3 85 [0x21, 5]) 2 =
      some [(⟨(3 : Nat) >>> 22, (3 : Nat) &&& 0x3FFFFF⟩, [(85, BValue.uint 5)])]) ∧
    (parseReadPropertyMultipleResponse (mkRPMAckOne 3 3 85 ([0x21, 5] ++ [0x21, 7])) 3 =
      none) :=
  ⟨propertyBracket_value_shapes.1 1 3 85 [([0x21, 5], BValue.uint 5), ([0x21, 7], BValue.uint 7)]
      (by
        intro q hq
        simp only [List.mem_cons, List.not_mem_nil, or_false] at hq
        rcases hq with rfl | rfl
        · exact ⟨rfl, by decide⟩
        · exact ⟨rfl, by decide⟩),
    propertyBracket_value_shapes.2.1 2 3 85 [0x21, 5] (BValue.uint 5) rfl (by decide),
    propertyBracket_value_shapes.2.2 3 3 85 [0x21, 5] [0x21, 7] (BValue.uint 5)
      (BValue.uint 7) rfl rfl (by decide)⟩

end BACnet
